import Mathlib

/-!
Verification development for the aibuddy command-line assistant
(src/aibuddy.py).  Strings are modelled as `List Char`; the Python
string primitives used by the program (`strip`, `split`, `join`,
`replace`, `startswith`, `endswith`, substring `in`, `lower`) are
embedded as executable functions on character lists below, and each
program function under scrutiny (`execute_command`, `call_llm_api`,
`is_server_running`, the extraction code inside `generate` and
`fix_command_errors`, and the repair orchestration of the `fix`
subcommand) is embedded as a Lean definition over those primitives.
External effects (the subprocess outcome, the HTTP response, the
interactive confirmation answers, the model's reply) enter as explicit
oracle parameters.
-/

/-- The backtick character (code 96), used by fence delimiters. -/
def bk : Char := Char.ofNat 96

/-- Python `str.isspace` characters relevant to `str.strip()`. -/
def isPySpace (c : Char) : Bool :=
  c = ' ' || c = '\t' || c = '\n' || c = '\r' || c = Char.ofNat 11 || c = Char.ofNat 12

/-- Python `str.strip()`: remove leading and trailing whitespace. -/
def pyStrip (l : List Char) : List Char :=
  ((l.dropWhile isPySpace).reverse.dropWhile isPySpace).reverse

/-- Python `str.startswith`: `leadsWith p s` iff `p` is an initial run of `s`. -/
def leadsWith : List Char → List Char → Bool
  | [], _ => true
  | _ :: _, [] => false
  | a :: p, b :: s => a == b && leadsWith p s

/-- Python `str.endswith`. -/
def trailsWith (p s : List Char) : Bool := leadsWith p.reverse s.reverse

/-- Python substring test `p in s`. -/
def containsSeq (p : List Char) : List Char → Bool
  | [] => p.isEmpty
  | c :: s => leadsWith p (c :: s) || containsSeq p s

/-- Python `str.split("\n")`. -/
def splitNl : List Char → List (List Char)
  | [] => [[]]
  | c :: s =>
    if c = '\n' then [] :: splitNl s
    else (c :: (splitNl s).headI) :: (splitNl s).tail

/-- Python `"\n".join`. -/
def joinNl : List (List Char) → List Char
  | [] => []
  | [l] => l
  | l :: ls => l ++ '\n' :: joinNl ls

/-- Python `str.replace(p, r)` (left-to-right, non-overlapping); every
call site in the embedded program uses a non-empty pattern. -/
def replaceSub (p r : List Char) (s : List Char) : List Char :=
  match s with
  | [] => []
  | c :: cs =>
    if leadsWith p (c :: cs) && !p.isEmpty then
      r ++ replaceSub p r (List.drop (p.length - 1) cs)
    else
      c :: replaceSub p r cs
termination_by s.length
decreasing_by
  · simp only [List.length_cons, List.length_drop]
    omega
  · simp only [List.length_cons]
    omega

/-- Python `str.lower()` (ASCII case folding suffices here). -/
def lowerSeq (l : List Char) : List Char := l.map Char.toLower

/-! ## Embedding of `execute_command` (src/aibuddy.py lines 171-196) -/

/-- Outcome of the `subprocess.run` call (oracle input): either a completed
process with captured stdout, stderr and exit status, or a raised exception
with its message (caught by the function's `except` clause). -/
inductive SysOutcome where
  | ok (stdout stderr : List Char) (exitStatus : Int)
  | exn (msg : List Char)
deriving DecidableEq

/-- What `execute_command` yields: the returned output string, plus two
observables of its control flow — whether the confirmation gate was
invoked, and whether the subprocess was run. -/
structure ExecOutcome where
  output : List Char
  confirmAsked : Bool
  ran : Bool
deriving DecidableEq

/-- The fixed denylist of line 178. -/
def dangerWords : List (List Char) :=
  ["rm".toList, "sudo".toList, "dd".toList, "mkfs".toList,
   "> /dev".toList, "chmod".toList, "reboot".toList, "shutdown".toList]

/-- `any(danger_word in command for danger_word in [...])`: raw substring
containment of some denylisted token. -/
def isSensitive (cmd : List Char) : Bool :=
  dangerWords.any (fun w => containsSeq w cmd)

/-- The string returned when a sensitive command's confirmation is declined. -/
def cancelMsg : List Char := "Command execution cancelled.".toList

/-- Lines 190-192: `output = result.stdout; if result.stderr: output +=
"\nErrors:\n" + result.stderr`. -/
def combineOut (stdout stderr : List Char) : List Char :=
  stdout ++ (if stderr.isEmpty then [] else "\nErrors:\n".toList ++ stderr)

/-- The output string produced once the subprocess step happens: the combined
output on completion, or the `except` clause's message on an exception. -/
def runOutput : SysOutcome → List Char
  | .ok so se _ => combineOut so se
  | .exn m => "Error executing command: ".toList ++ m

/-- `execute_command(command)`: confirmation gate for sensitive commands,
then shell execution with combined output.  `confirmAnswer` is the user's
reply to `click.confirm` (consulted only when asked); `sys` is the
subprocess oracle. -/
def executeCommand (cmd : List Char) (confirmAnswer : Bool) (sys : SysOutcome) : ExecOutcome :=
  if isSensitive cmd then
    if confirmAnswer then ⟨runOutput sys, true, true⟩
    else ⟨cancelMsg, true, false⟩
  else ⟨runOutput sys, false, true⟩

/-- The failure check of `generate` (line 278): `"error" in output.lower()
or "not found" in output.lower()`. -/
def callerDetectsFailure (out : List Char) : Bool :=
  containsSeq ("error".toList) (lowerSeq out)
    || containsSeq ("not found".toList) (lowerSeq out)

/-- The failure check of `fix` (line 319), which adds a third marker. -/
def fixDetectsFailure (out : List Char) : Bool :=
  containsSeq ("error".toList) (lowerSeq out)
    || containsSeq ("not found".toList) (lowerSeq out)
    || containsSeq ("command not found".toList) (lowerSeq out)

/-! ## Embedding of scan-mode extraction (`fix_command_errors`, lines 220-231) -/

/-- `line.strip().startswith("```")`: a fenced-block delimiter line. -/
def isFenceLine (l : List Char) : Bool := leadsWith ("```".toList) (pyStrip l)

/-- `line.strip() and not line.startswith('#')`: a line collected when
inside a fenced block. -/
def qualifiesLine (l : List Char) : Bool :=
  !(pyStrip l).isEmpty && !(leadsWith ("#".toList) l)

/-- One iteration of the scanning loop: toggle on fence lines (then
`continue`), collect qualifying lines while inside a block. -/
def scanStep (st : Bool × List (List Char)) (line : List Char) : Bool × List (List Char) :=
  if isFenceLine line then (!st.1, st.2)
  else if st.1 && qualifiesLine line then (st.1, st.2 ++ [line])
  else st

/-- The `command_lines` list accumulated by the loop over `response.split("\n")`. -/
def collectCommandLines (resp : List Char) : List (List Char) :=
  ((splitNl resp).foldl scanStep (false, [])).2

/-- Scan-mode extraction: `command_lines[0]` when non-empty, else no candidate. -/
def fixExtract (resp : List Char) : Option (List Char) :=
  (collectCommandLines resp).head?

/-! ## Embedding of direct-mode extraction (`generate`, lines 255-263) -/

/-- Direct-mode extraction: strip, unwrap a fully fenced response by
dropping its first and last lines, scrub fence markers, strip again. -/
def directExtract (response : List Char) : List Char :=
  let command := pyStrip response
  let command :=
    if leadsWith ("```".toList) command && trailsWith ("```".toList) command then
      joinNl (((splitNl command).drop 1).dropLast)
    else command
  pyStrip (replaceSub ("```".toList) []
    (replaceSub ("```shell".toList) []
      (replaceSub ("```bash".toList) [] command)))

/-! ## Embedding of the repair orchestration (`fix_command_errors` lines
198-235 and the `fix` subcommand lines 309-330) -/

/-- `fix_command_errors`: consult the model once (`llmResp` is the oracle
for `call_llm_api`, `none` when it returned `None`); extract a candidate
in scan mode; on user acceptance execute it exactly once; otherwise
return `none`.  The error text and original command only feed the repair
prompt, which does not influence this result. -/
def fixCommandErrors (llmResp : Option (List Char)) (acceptFix : Bool)
    (c2 : Bool) (s2 : SysOutcome) : Option ExecOutcome :=
  match llmResp with
  | none => none
  | some resp =>
    match fixExtract resp with
    | none => none
    | some fc => if acceptFix then some (executeCommand fc c2 s2) else none

/-- States of the repair loop (spec section 4.5). -/
inductive RState where
  | Executed
  | Diagnosing
  | Repaired
  | Done
deriving DecidableEq

/-- State trace of the `fix` subcommand: execute the original command
(Executed); when the failure markers fire, consult the model once
(Diagnosing); when a candidate is extracted and accepted, execute it once
more (Repaired); then the flow unconditionally finishes (Done).  The
code contains no loop or recursion, which this trace mirrors. -/
def fixFlowTrace (cmd : List Char) (c1 : Bool) (s1 : SysOutcome)
    (llmResp : Option (List Char)) (acceptFix : Bool) : List RState :=
  if fixDetectsFailure ((executeCommand cmd c1 s1).output) then
    [RState.Executed, RState.Diagnosing]
      ++ (match llmResp with
          | none => []
          | some resp =>
            match fixExtract resp with
            | none => []
            | some _ => if acceptFix then [RState.Repaired] else [])
      ++ [RState.Done]
  else [RState.Executed, RState.Done]

/-! ## Embedding of server supervision (`is_server_running` lines 66-72,
`call_llm_api` prelude lines 79-93) -/

/-- `is_server_running`: the health probe yields either an HTTP status
(`some code`) or a raised exception (`none`); only status 200 counts. -/
def isServerRunning (resp : Option Nat) : Bool :=
  match resp with
  | some code => code == 200
  | none => false

inductive ServerStatus where
  | ready
  | failed
deriving DecidableEq

/-- The supervision prelude of `call_llm_api`: if the initial health probe
succeeds, proceed immediately; otherwise launch the server (the Boolean
component records that `start_server` ran) and poll the health endpoint up
to 10 times, failing if all polls miss. -/
def ensureAvailable (probe0 : Option Nat) (polls : List (Option Nat)) :
    ServerStatus × Bool :=
  if isServerRunning probe0 then (ServerStatus.ready, false)
  else
    (if (polls.take 10).any isServerRunning then ServerStatus.ready
     else ServerStatus.failed, true)

/-! ## Embedding of the completion request (`call_llm_api` lines 101-122) -/

/-- Outcome of the HTTP POST (oracle input): a response with status code and
(for status 200) the first choice's message content, or a raised transport
exception with its message. -/
inductive ApiOutcome where
  | response (status : Nat) (content : List Char)
  | exn (msg : List Char)

/-- The request phase of `call_llm_api`: status 200 returns the content;
any other status returns `None` after echoing a status-code message; any
exception returns `None` after echoing the exception text.  The pair is
(returned value, echoed diagnostic). -/
def callLlmApiResult : ApiOutcome → Option (List Char) × List Char
  | .response status content =>
    if status == 200 then (some content, [])
    else (none, "Error: API returned status code ".toList ++ (Nat.repr status).toList)
  | .exn m => (none, "Error calling API: ".toList ++ m)

-- Basic lemmas about the string primitives.

theorem leadsWith_append_self (p r : List Char) : leadsWith p (p ++ r) = true := by
  induction p with
  | nil => rfl
  | cons a p ih => simp [leadsWith, ih]

theorem leadsWith_extend {p s : List Char} (b : List Char)
    (h : leadsWith p s = true) : leadsWith p (s ++ b) = true := by
  induction p generalizing s with
  | nil => rfl
  | cons a p ih =>
    cases s with
    | nil => simp [leadsWith] at h
    | cons c cs =>
      simp only [leadsWith, Bool.and_eq_true] at h
      simp [leadsWith, h.1, ih h.2]

theorem containsSeq_append_right {p s : List Char} (b : List Char)
    (h : containsSeq p s = true) : containsSeq p (s ++ b) = true := by
  induction s with
  | nil =>
    simp only [containsSeq, List.isEmpty_iff] at h
    subst h
    cases b with
    | nil => rfl
    | cons c cs => simp [containsSeq, leadsWith]
  | cons c cs ih =>
    simp only [containsSeq, Bool.or_eq_true] at h
    rcases h with h | h
    · simp only [List.cons_append, containsSeq]
      have := leadsWith_extend (p := p) (s := c :: cs) b h
      simp only [List.cons_append] at this
      simp [this]
    · simp [containsSeq, ih h]

theorem containsSeq_append_left {p s : List Char} (a : List Char)
    (h : containsSeq p s = true) : containsSeq p (a ++ s) = true := by
  induction a with
  | nil => simpa using h
  | cons c cs ih => simp [containsSeq, ih]

theorem leadsWith_of_leadsWith_append {p q s : List Char}
    (h : leadsWith (p ++ q) s = true) : leadsWith p s = true := by
  induction p generalizing s with
  | nil => rfl
  | cons a p ih =>
    cases s with
    | nil => simp [leadsWith] at h
    | cons c cs =>
      simp only [List.cons_append, leadsWith, Bool.and_eq_true] at h
      simp [leadsWith, h.1, ih h.2]

theorem containsSeq_of_containsSeq_append {p q s : List Char}
    (h : containsSeq (p ++ q) s = true) : containsSeq p s = true := by
  induction s with
  | nil =>
    simp only [containsSeq, List.isEmpty_iff, List.append_eq_nil] at h
    simp [containsSeq, h.1]
  | cons c cs ih =>
    simp only [containsSeq, Bool.or_eq_true] at h
    rcases h with h | h
    · exact Bool.or_eq_true _ _ |>.mpr (Or.inl (leadsWith_of_leadsWith_append h))
    · exact Bool.or_eq_true _ _ |>.mpr (Or.inr (ih h))

theorem replaceSub_of_not_contains {p s : List Char} (r : List Char)
    (h : containsSeq p s = false) : replaceSub p r s = s := by
  induction s with
  | nil => rw [replaceSub]
  | cons c cs ih =>
    simp only [containsSeq, Bool.or_eq_false_iff] at h
    rw [replaceSub]
    rw [if_neg (by simp [h.1])]
    rw [ih h.2]

-- Lemmas about the executor's combined output.

theorem combined_contains_error {so se : List Char} (hse : se ≠ []) :
    containsSeq ("error".toList) (lowerSeq (combineOut so se)) = true := by
  unfold combineOut
  have hne : se.isEmpty = false := by simpa [List.isEmpty_iff] using hse
  rw [hne]
  simp only [Bool.false_eq_true, if_false]
  unfold lowerSeq
  rw [List.map_append]
  apply containsSeq_append_left
  rw [List.map_append]
  apply containsSeq_append_right
  decide

theorem executeCommand_ok_output {cmd so se : List Char} {c : Bool} {code : Int}
    (hran : (executeCommand cmd c (.ok so se code)).ran = true) :
    (executeCommand cmd c (.ok so se code)).output = combineOut so se := by
  unfold executeCommand at hran ⊢
  by_cases hs : isSensitive cmd = true
  · rw [if_pos hs] at hran ⊢
    cases c
    · simp at hran
    · simp [runOutput]
  · rw [if_neg hs] at hran ⊢
    simp [runOutput]

/-- C2: a command containing a denylisted token triggers the interactive
confirmation gate before execution; a command containing none is run with
no confirmation prompt. -/
theorem executor_confirmation_gate (cmd : List Char) (c : Bool) (sys : SysOutcome) :
    ((∃ w ∈ dangerWords, containsSeq w cmd = true) →
        (executeCommand cmd c sys).confirmAsked = true)
    ∧ ((∀ w ∈ dangerWords, containsSeq w cmd = false) →
        (executeCommand cmd c sys).confirmAsked = false
          ∧ (executeCommand cmd c sys).ran = true) := by
  constructor
  · rintro ⟨w, hw, hc⟩
    have hs : isSensitive cmd = true := by
      unfold isSensitive
      exact List.any_eq_true.mpr ⟨w, hw, hc⟩
    unfold executeCommand
    rw [if_pos hs]
    cases c <;> simp
  · intro h
    have hs : isSensitive cmd = false := by
      unfold isSensitive
      exact List.any_eq_false.mpr fun w hw => by simp [h w hw]
    unfold executeCommand
    rw [if_neg (by simp [hs])]
    exact ⟨rfl, rfl⟩

/-- Witness for C2 at the concrete commands `rm -rf /tmp/x` (gated) and
`ls -la` (run unprompted). -/
theorem executor_confirmation_gate_witness :
    (executeCommand ("rm -rf /tmp/x".toList) false (.ok [] [] 0)).confirmAsked = true
    ∧ (executeCommand ("ls -la".toList) false (.ok [] [] 0)).confirmAsked = false
    ∧ (executeCommand ("ls -la".toList) false (.ok [] [] 0)).ran = true := by
  refine ⟨(executor_confirmation_gate _ false _).1 ⟨"rm".toList, by decide, by decide⟩, ?_, ?_⟩
  · exact ((executor_confirmation_gate ("ls -la".toList) false (.ok [] [] 0)).2 (by decide)).1
  · exact ((executor_confirmation_gate ("ls -la".toList) false (.ok [] [] 0)).2 (by decide)).2

/-- C10: sensitivity is raw substring containment, not a word-boundary
match: `echo information` invokes no denylisted utility (no whitespace
token of it equals a denylist entry), yet the gate is invoked because
"information" contains "rm"; with confirmation declined the command is
not run at all. -/
theorem substring_sensitivity_no_word_boundary :
    (∀ w ∈ dangerWords, w ≠ "echo".toList ∧ w ≠ "information".toList)
    ∧ (executeCommand ("echo information".toList) false (.ok [] [] 0)).confirmAsked = true
    ∧ (executeCommand ("echo information".toList) false (.ok [] [] 0)).ran = false := by
  decide

/-- C5 counterexample: declining the confirmation for `rm -rf /tmp/x`
yields the bare string "Command execution cancelled." with no subprocess
run — but there is no distinguished exit-status sentinel: the returned
value carries no exit status at all, and an ordinary non-sensitive command
whose stdout is that very text produces an identical output, so the
cancellation outcome is not distinguished by any sentinel. -/
theorem cancellation_no_sentinel :
    executeCommand ("rm -rf /tmp/x".toList) false (.ok [] [] 0)
      = ⟨"Command execution cancelled.".toList, true, false⟩
    ∧ (executeCommand ("rm -rf /tmp/x".toList) false (.ok [] [] 0)).output
      = (executeCommand ("ls".toList) true
          (.ok ("Command execution cancelled.".toList) [] 0)).output := by
  decide

/-- C5 amended: for every sensitive command whose confirmation is declined,
the executor returns exactly the cancellation string as its whole result
and no subprocess is run; the result is a plain output string with no
exit-status field, hence no sentinel exit status. -/
theorem decline_yields_cancellation (cmd : List Char) (sys : SysOutcome)
    (h : isSensitive cmd = true) :
    executeCommand cmd false sys = ⟨cancelMsg, true, false⟩ := by
  unfold executeCommand
  rw [if_pos h]
  simp

/-- Witness for C5's amended theorem at `rm -rf /tmp/x`. -/
theorem decline_yields_cancellation_witness :
    executeCommand ("rm -rf /tmp/x".toList) false (.ok [] [] 0)
      = ⟨cancelMsg, true, false⟩ :=
  decline_yields_cancellation _ _ (by decide)

/-- C9: whenever the subprocess runs and its stderr is non-empty, the
executor prefixes stderr with the separator "\nErrors:\n", whose lowercased
form contains "error", so both callers' failure checks fire regardless of
the stderr content and of the exit status. -/
theorem stderr_triggers_failure_marker (cmd so se : List Char) (c : Bool) (code : Int)
    (hse : se ≠ [])
    (hran : (executeCommand cmd c (.ok so se code)).ran = true) :
    callerDetectsFailure ((executeCommand cmd c (.ok so se code)).output) = true
    ∧ fixDetectsFailure ((executeCommand cmd c (.ok so se code)).output) = true := by
  rw [executeCommand_ok_output hran]
  constructor
  · unfold callerDetectsFailure
    rw [combined_contains_error hse]
    simp
  · unfold fixDetectsFailure
    rw [combined_contains_error hse]
    simp

/-- Witness for C9: `catt x.txt` fails with a "command not found" stderr
(exit status 127); the failure checks fire. -/
theorem stderr_triggers_failure_marker_witness :
    callerDetectsFailure ((executeCommand ("catt x.txt".toList) false
      (.ok [] ("sh: catt: command not found".toList) 127)).output) = true
    ∧ fixDetectsFailure ((executeCommand ("catt x.txt".toList) false
      (.ok [] ("sh: catt: command not found".toList) 127)).output) = true :=
  stderr_triggers_failure_marker ("catt x.txt".toList) [] ("sh: catt: command not found".toList)
    false 127 (by decide) (by decide)

/-- C3 counterexample: the command `false` exits with status 1, empty
stdout and empty stderr; neither caller classifies it as a failure and the
repair path is never entered, although the claim's "non-zero exit status"
disjunct demands a failure classification here. -/
theorem exit_status_ignored_counterexample :
    callerDetectsFailure ((executeCommand ("false".toList) false (.ok [] [] 1)).output) = false
    ∧ fixDetectsFailure ((executeCommand ("false".toList) false (.ok [] [] 1)).output) = false
    ∧ RState.Diagnosing ∉ fixFlowTrace ("false".toList) false (.ok [] [] 1) none false
    ∧ (1 : Int) ≠ 0 := by
  decide

/-- C3 amended: a command execution is classified as a failure exactly when
its captured output contains a failure marker; the exit status is never
consulted (two runs differing only in exit status yield identical results),
failures are returned as ordinary results — even a raised exception is
caught and returned as an output string that the callers flag — and the
`fix` flow enters the repair path (Diagnosing) precisely when the marker
check fires. -/
theorem failure_detection_output_only (cmd so se m : List Char) (c : Bool) (k1 k2 : Int)
    (hran : (executeCommand cmd c (.exn m)).ran = true) :
    executeCommand cmd c (.ok so se k1) = executeCommand cmd c (.ok so se k2)
    ∧ callerDetectsFailure ((executeCommand cmd c (.exn m)).output) = true
    ∧ (∀ llmResp acceptFix,
        RState.Diagnosing ∈ fixFlowTrace cmd c (.ok so se k1) llmResp acceptFix
          ↔ fixDetectsFailure ((executeCommand cmd c (.ok so se k1)).output) = true) := by
  refine ⟨?_, ?_, ?_⟩
  · rfl
  · have hout : (executeCommand cmd c (.exn m)).output
        = "Error executing command: ".toList ++ m := by
      unfold executeCommand at hran ⊢
      by_cases hs : isSensitive cmd = true
      · rw [if_pos hs] at hran ⊢
        cases c
        · simp at hran
        · simp [runOutput]
      · rw [if_neg hs] at hran ⊢
        simp [runOutput]
    rw [hout]
    unfold callerDetectsFailure lowerSeq
    rw [List.map_append]
    have : containsSeq ("error".toList)
        (List.map Char.toLower ("Error executing command: ".toList)) = true := by decide
    rw [containsSeq_append_right _ this]
    simp
  · intro llmResp acceptFix
    unfold fixFlowTrace
    by_cases hf : fixDetectsFailure ((executeCommand cmd c (.ok so se k1)).output) = true
    · rw [if_pos hf]
      simp [hf]
    · rw [if_neg hf]
      simp only [List.mem_cons, List.not_mem_nil, or_false]
      constructor
      · rintro (h | h) <;> simp_all
      · intro h
        exact absurd h hf

/-- Witness for C3's amended theorem: two runs of `ls` differing only in
exit status coincide; a raised exception comes back as a flagged ordinary
output; the repair path opens exactly on the marker. -/
theorem failure_detection_output_only_witness :
    executeCommand ("ls".toList) false (.ok ("a.txt".toList) [] 0)
      = executeCommand ("ls".toList) false (.ok ("a.txt".toList) [] 7)
    ∧ callerDetectsFailure ((executeCommand ("ls".toList) false
        (.exn ("timeout".toList))).output) = true
    ∧ (∀ llmResp acceptFix,
        RState.Diagnosing ∈ fixFlowTrace ("ls".toList) false
            (.ok ("a.txt".toList) [] 0) llmResp acceptFix
          ↔ fixDetectsFailure ((executeCommand ("ls".toList) false
              (.ok ("a.txt".toList) [] 0)).output) = true) :=
  failure_detection_output_only ("ls".toList) ("a.txt".toList) [] ("timeout".toList)
    false 0 7 (by decide)

/-- C6: when the initial health probe reports the server running (HTTP
200), `call_llm_api` proceeds immediately: supervision reports ready and
`start_server` — the launcher-script writer and process spawner — is never
invoked. -/
theorem healthy_no_launch (probe0 : Option Nat) (polls : List (Option Nat))
    (h : isServerRunning probe0 = true) :
    ensureAvailable probe0 polls = (ServerStatus.ready, false) := by
  unfold ensureAvailable
  rw [if_pos h]

/-- Witness for C6 at a healthy probe (status 200). -/
theorem healthy_no_launch_witness :
    ensureAvailable (some 200) [some 500, none] = (ServerStatus.ready, false) :=
  healthy_no_launch _ _ (by decide)

/-- C4 counterexample: an HTTP 500 response and a transport fault both make
`call_llm_api` return `None` — the value the caller receives is identical
in the two failure modes, so the caller cannot tell them apart; the status
code survives only in the echoed terminal message. -/
theorem api_failure_indistinguishable :
    (callLlmApiResult (.response 500 [])).1
      = (callLlmApiResult (.exn ("Connection refused".toList))).1
    ∧ (callLlmApiResult (.response 500 [])).1 = none := by
  decide

/-- C4 amended: status 200 returns the first choice's content; every
non-200 status and every transport fault return `None` (indistinguishable
to the caller); the two failure modes differ only in the echoed diagnostic
text, which always differs between them. -/
theorem api_result_mapping (status : Nat) (content m : List Char)
    (h : status ≠ 200) :
    (callLlmApiResult (.response 200 content)).1 = some content
    ∧ (callLlmApiResult (.response status content)).1 = none
    ∧ (callLlmApiResult (.exn m)).1 = none
    ∧ (callLlmApiResult (.response status content)).2
        ≠ (callLlmApiResult (.exn m)).2 := by
  have hb : (status == 200) = false := by simpa using h
  refine ⟨rfl, ?_, rfl, ?_⟩
  · simp [callLlmApiResult, hb]
  · simp only [callLlmApiResult, hb, Bool.false_eq_true, if_false]
    intro heq
    have h7 := congrArg (List.take 7) heq
    rw [List.take_append_of_le_length (by decide),
      List.take_append_of_le_length (by decide)] at h7
    exact absurd h7 (by decide)

/-- Witness for C4's amended theorem at status 500 and a timeout fault. -/
theorem api_result_mapping_witness :
    (callLlmApiResult (.response 200 ("ls".toList))).1 = some ("ls".toList)
    ∧ (callLlmApiResult (.response 500 ("ls".toList))).1 = none
    ∧ (callLlmApiResult (.exn ("timed out".toList))).1 = none
    ∧ (callLlmApiResult (.response 500 ("ls".toList))).2
        ≠ (callLlmApiResult (.exn ("timed out".toList))).2 :=
  api_result_mapping 500 ("ls".toList) ("timed out".toList) (by decide)

/-- C1: the repair flow performs exactly one repair cycle: when the
original command fails, the model is consulted once (Diagnosing), the
extracted candidate is — after user acceptance — executed exactly once
more (Repaired), and the flow reaches Done with no further repair even
when that second execution also fails: the trace is exactly
Executed, Diagnosing, Repaired, Done, with a single Repaired state, and
`fix_command_errors` returns that single second execution's result. -/
theorem repairLoop_single_cycle (cmd resp fc : List Char) (c1 c2 : Bool)
    (s1 s2 : SysOutcome) (llmResp : Option (List Char)) (acceptFix : Bool)
    (h1 : fixDetectsFailure ((executeCommand cmd c1 s1).output) = true)
    (hllm : llmResp = some resp)
    (hx : fixExtract resp = some fc)
    (hacc : acceptFix = true)
    (h2 : fixDetectsFailure ((executeCommand fc c2 s2).output) = true) :
    fixFlowTrace cmd c1 s1 llmResp acceptFix
      = [RState.Executed, RState.Diagnosing, RState.Repaired, RState.Done]
    ∧ (fixFlowTrace cmd c1 s1 llmResp acceptFix).count RState.Repaired = 1
    ∧ fixCommandErrors llmResp acceptFix c2 s2 = some (executeCommand fc c2 s2) := by
  subst hllm
  subst hacc
  have ht : fixFlowTrace cmd c1 s1 (some resp) true
      = [RState.Executed, RState.Diagnosing, RState.Repaired, RState.Done] := by
    unfold fixFlowTrace
    rw [if_pos h1]
    simp [hx]
  refine ⟨ht, ?_, ?_⟩
  · rw [ht]
    rfl
  · unfold fixCommandErrors
    simp [hx]

/-- Witness for C1: `catt f.txt` fails ("command not found"), the model
proposes a fenced `cat f.txt`, the user accepts, and the repaired
command fails too ("No such file or directory"); the trace still shows
exactly one repair cycle. -/
theorem repairLoop_single_cycle_witness :
    fixFlowTrace ("catt f.txt".toList) false
        (.ok [] ("catt: command not found".toList) 127)
        (some ("Use cat instead:\n```\ncat f.txt\n```".toList)) true
      = [RState.Executed, RState.Diagnosing, RState.Repaired, RState.Done]
    ∧ (fixFlowTrace ("catt f.txt".toList) false
        (.ok [] ("catt: command not found".toList) 127)
        (some ("Use cat instead:\n```\ncat f.txt\n```".toList)) true).count RState.Repaired = 1
    ∧ fixCommandErrors (some ("Use cat instead:\n```\ncat f.txt\n```".toList)) true
        false (.ok [] ("cat: f.txt: No such file or directory".toList) 1)
      = some (executeCommand ("cat f.txt".toList) false
          (.ok [] ("cat: f.txt: No such file or directory".toList) 1)) :=
  repairLoop_single_cycle ("catt f.txt".toList)
    ("Use cat instead:\n```\ncat f.txt\n```".toList) ("cat f.txt".toList)
    false false
    (.ok [] ("catt: command not found".toList) 127)
    (.ok [] ("cat: f.txt: No such file or directory".toList) 1)
    (some ("Use cat instead:\n```\ncat f.txt\n```".toList)) true
    (by decide) rfl (by decide) rfl (by decide)

-- Lemmas about the scanning loop of `fix_command_errors`.

theorem scanFold_outside (ls : List (List Char)) (acc : List (List Char))
    (h : ∀ l ∈ ls, isFenceLine l = false) :
    ls.foldl scanStep (false, acc) = (false, acc) := by
  induction ls generalizing acc with
  | nil => rfl
  | cons l ls ih =>
    have h1 : isFenceLine l = false := h l (by simp)
    simp only [List.foldl_cons]
    have hstep : scanStep (false, acc) l = (false, acc) := by
      simp [scanStep, h1]
    rw [hstep]
    exact ih acc fun x hx => h x (by simp [hx])

theorem scanFold_inside (ls : List (List Char)) (acc : List (List Char))
    (h : ∀ l ∈ ls, isFenceLine l = false) :
    ls.foldl scanStep (true, acc) = (true, acc ++ ls.filter qualifiesLine) := by
  induction ls generalizing acc with
  | nil => simp
  | cons l ls ih =>
    have h1 : isFenceLine l = false := h l (by simp)
    simp only [List.foldl_cons]
    by_cases hq : qualifiesLine l = true
    · have hstep : scanStep (true, acc) l = (true, acc ++ [l]) := by
        simp [scanStep, h1, hq]
      rw [hstep, ih (acc ++ [l]) fun x hx => h x (by simp [hx])]
      simp [List.filter_cons, hq]
    · have hq2 : qualifiesLine l = false := by simpa using hq
      have hstep : scanStep (true, acc) l = (true, acc) := by
        simp [scanStep, h1, hq2]
      rw [hstep, ih acc fun x hx => h x (by simp [hx])]
      simp [List.filter_cons, hq2]

/-- C8: when the response's lines consist of text without fence
delimiters, one opening fence, block lines without fence delimiters, one
closing fence, and trailing text without fence delimiters — i.e., exactly
one fenced block — scan-mode extraction yields the head of the block's
non-empty, non-comment lines: with exactly one such line that line is the
candidate, with zero such lines the result is Absent (`none`), and with
several the first collected one is the candidate while the later lines
are discarded. -/
theorem scan_extract_first_line (resp f1 f2 : List Char)
    (pres mids posts : List (List Char))
    (hsplit : splitNl resp = pres ++ f1 :: (mids ++ f2 :: posts))
    (hpre : ∀ l ∈ pres, isFenceLine l = false)
    (hmid : ∀ l ∈ mids, isFenceLine l = false)
    (hpost : ∀ l ∈ posts, isFenceLine l = false)
    (hf1 : isFenceLine f1 = true)
    (hf2 : isFenceLine f2 = true) :
    fixExtract resp = (mids.filter qualifiesLine).head? := by
  unfold fixExtract collectCommandLines
  rw [hsplit, List.foldl_append, scanFold_outside pres [] hpre]
  simp only [List.foldl_cons]
  have hstep1 : scanStep (false, []) f1 = (true, []) := by
    simp [scanStep, hf1]
  rw [hstep1, List.foldl_append, scanFold_inside mids [] hmid]
  simp only [List.foldl_cons, List.nil_append]
  have hstep2 : scanStep (true, mids.filter qualifiesLine) f2
      = (false, mids.filter qualifiesLine) := by
    simp [scanStep, hf2]
  rw [hstep2, scanFold_outside posts _ hpost]

/-- Witness for C8: a response with one fenced block holding a comment
line and two command lines; extraction returns the first command line and
discards the second. -/
theorem scan_extract_first_line_witness :
    fixExtract ("Try:\n```\n# comment\ncat f.txt\necho done\n```\nBye.".toList)
      = some ("cat f.txt".toList) :=
  by
    have h := scan_extract_first_line
      ("Try:\n```\n# comment\ncat f.txt\necho done\n```\nBye.".toList)
      ("```".toList) ("```".toList)
      [("Try:".toList)]
      [("# comment".toList), ("cat f.txt".toList), ("echo done".toList)]
      [("Bye.".toList)]
      (by decide) (by decide) (by decide) (by decide) (by decide) (by decide)
    rw [h]
    decide

-- Lemmas about line splitting and joining.

theorem splitNl_ne_nil (l : List Char) : splitNl l ≠ [] := by
  cases l with
  | nil => simp [splitNl]
  | cons c s =>
    unfold splitNl
    split <;> simp

theorem splitNl_no_nl (l : List Char) (h : ∀ c ∈ l, c ≠ '\n') : splitNl l = [l] := by
  induction l with
  | nil => rfl
  | cons c s ih =>
    have hc : c ≠ '\n' := h c (by simp)
    have hs : splitNl s = [s] := ih fun x hx => h x (by simp [hx])
    simp [splitNl, hc, hs]

theorem splitNl_append_nl (a b : List Char) :
    splitNl (a ++ '\n' :: b) = splitNl a ++ splitNl b := by
  induction a with
  | nil => simp [splitNl]
  | cons c s ih =>
    obtain ⟨h, t, hx⟩ := List.exists_cons_of_ne_nil (splitNl_ne_nil s)
    by_cases hc : c = '\n'
    · subst hc
      simp [splitNl, ih]
    · simp only [List.cons_append, splitNl, hc, if_false]
      simp only [List.append_eq]
      rw [ih, hx]
      simp [List.headI]

theorem joinNl_splitNl (l : List Char) : joinNl (splitNl l) = l := by
  induction l with
  | nil => rfl
  | cons c s ih =>
    obtain ⟨h, t, hx⟩ := List.exists_cons_of_ne_nil (splitNl_ne_nil s)
    by_cases hc : c = '\n'
    · subst hc
      rw [hx] at ih
      simp only [splitNl, if_pos rfl, hx, joinNl]
      simpa using ih
    · rw [hx] at ih
      cases t with
      | nil =>
        simp only [joinNl] at ih
        simp [splitNl, hc, hx, joinNl, ih]
      | cons t1 ts =>
        simp only [joinNl] at ih
        simp only [splitNl, hc, if_false, hx, List.headI, List.tail_cons, joinNl]
        simp [ih]

-- Lemmas about stripping.

theorem pyStrip_wrapped (xs : List Char) :
    pyStrip (bk :: xs ++ [bk]) = bk :: xs ++ [bk] := by
  have hbk : ¬isPySpace bk = true := by decide
  unfold pyStrip
  rw [List.cons_append, List.dropWhile_cons_of_neg hbk, ← List.cons_append,
    List.reverse_append, show ([bk] : List Char).reverse = [bk] from rfl,
    List.singleton_append, List.dropWhile_cons_of_neg hbk,
    List.reverse_cons, List.reverse_reverse]

theorem containsSeq_pyStrip {p l : List Char}
    (h : containsSeq p (pyStrip l) = true) : containsSeq p l = true := by
  unfold pyStrip at h
  set u := l.dropWhile isPySpace with hu
  have hsplit : u = (u.reverse.dropWhile isPySpace).reverse
      ++ (u.reverse.takeWhile isPySpace).reverse := by
    conv_lhs => rw [← List.reverse_reverse u,
      ← List.takeWhile_append_dropWhile (p := isPySpace) (l := u.reverse)]
    rw [List.reverse_append]
  have h2 : containsSeq p u = true := by
    rw [hsplit]
    exact containsSeq_append_right _ h
  rw [← List.takeWhile_append_dropWhile (p := isPySpace) (l := l)]
  exact containsSeq_append_left _ h2

/-- C7: a raw response fully wrapped in a single fenced block with a
leading language tag — the tag on the opening fence line, the inner
content free of fence delimiters — is reduced by direct-mode extraction
to exactly the fence's inner content, language tag removed, trimmed of
surrounding whitespace, and containing no residual fence delimiter. -/
theorem direct_extract_fenced (lang inner : List Char)
    (hlang : ∀ c ∈ lang, c ≠ '\n')
    (hinner : containsSeq ("```".toList) inner = false) :
    directExtract ("```".toList ++ lang ++ '\n' :: (inner ++ '\n' :: "```".toList))
        = pyStrip inner
    ∧ containsSeq ("```".toList)
        (directExtract ("```".toList ++ lang ++ '\n' :: (inner ++ '\n' :: "```".toList)))
        = false := by
  set resp := "```".toList ++ lang ++ '\n' :: (inner ++ '\n' :: "```".toList) with hresp
  have hb3 : ("```".toList : List Char) = [bk, bk, bk] := by decide
  have hform : resp = bk :: (bk :: bk :: lang ++ '\n' :: inner ++ '\n' :: [bk, bk]) ++ [bk] := by
    rw [hresp, hb3]
    simp [List.append_assoc]
  have hA : pyStrip resp = resp := by
    rw [hform]
    exact pyStrip_wrapped _
  have hlead : leadsWith ("```".toList) resp = true := by
    rw [hresp, List.append_assoc]
    exact leadsWith_append_self _ _
  have htrail : trailsWith ("```".toList) resp = true := by
    have hform2 : resp
        = (("```".toList ++ lang) ++ ('\n' :: inner ++ ['\n'])) ++ "```".toList := by
      rw [hresp]
      simp [List.append_assoc]
    unfold trailsWith
    rw [hform2, List.reverse_append]
    exact leadsWith_append_self _ _
  have hno2 : ∀ c ∈ ("```".toList : List Char), c ≠ '\n' := by decide
  have hno1 : ∀ c ∈ ("```".toList ++ lang : List Char), c ≠ '\n' := by
    intro c hc
    rcases List.mem_append.mp hc with h | h
    · exact hno2 c h
    · exact hlang c h
  have hsplit : splitNl resp = ("```".toList ++ lang) :: (splitNl inner ++ ["```".toList]) := by
    rw [hresp, splitNl_append_nl, splitNl_append_nl, splitNl_no_nl _ hno1,
      splitNl_no_nl _ hno2]
    simp
  have hbash : containsSeq ("```bash".toList) inner = false := by
    cases hcb : containsSeq ("```bash".toList) inner with
    | false => rfl
    | true =>
      exfalso
      have heq : ("```bash".toList : List Char) = "```".toList ++ "bash".toList := by decide
      rw [heq] at hcb
      exact absurd (containsSeq_of_containsSeq_append hcb) (by rw [hinner]; simp)
  have hshell : containsSeq ("```shell".toList) inner = false := by
    cases hcb : containsSeq ("```shell".toList) inner with
    | false => rfl
    | true =>
      exfalso
      have heq : ("```shell".toList : List Char) = "```".toList ++ "shell".toList := by decide
      rw [heq] at hcb
      exact absurd (containsSeq_of_containsSeq_append hcb) (by rw [hinner]; simp)
  have hD : directExtract resp = pyStrip inner := by
    simp only [directExtract]
    rw [hA, hlead, htrail]
    simp only [Bool.and_self, if_true]
    rw [hsplit]
    simp only [List.drop_succ_cons, List.drop_zero]
    rw [List.dropLast_concat, joinNl_splitNl,
      replaceSub_of_not_contains _ hbash, replaceSub_of_not_contains _ hshell,
      replaceSub_of_not_contains _ hinner]
  refine ⟨hD, ?_⟩
  rw [hD]
  cases hc : containsSeq ("```".toList) (pyStrip inner) with
  | false => rfl
  | true => exact absurd (containsSeq_pyStrip hc) (by rw [hinner]; simp)

/-- Witness for C7 at the response "```bash\nls -la\n```". -/
theorem direct_extract_fenced_witness :
    directExtract ("```".toList ++ "bash".toList
        ++ '\n' :: ("ls -la".toList ++ '\n' :: "```".toList))
      = pyStrip ("ls -la".toList)
    ∧ containsSeq ("```".toList)
        (directExtract ("```".toList ++ "bash".toList
          ++ '\n' :: ("ls -la".toList ++ '\n' :: "```".toList)))
      = false :=
  direct_extract_fenced ("bash".toList) ("ls -la".toList) (by decide) (by decide)
